import Mathlib

/-!
Verification development for the `alpha` repository's analytics core
(`packages/core/src/indicators.rs`, `packages/core/src/analytics.rs`,
`packages/core/src/models.rs`, `packages/core/src/errors.rs`).

Embedding conventions:
* `f64` values are modelled as exact rationals (`ℚ`) wherever the source stays
  inside field operations and its `round_to` helper, and as real numbers (`ℝ`)
  where `f64::sqrt` enters (risk metrics, Bollinger standard deviation).
* `DateTime<Utc>` instants are modelled as integers; the `Utc::now()` call in
  `analyze_symbol` is passed in explicitly as a `now` parameter.
* Fallible paths return `Option`/`Except`.  In particular `calculate_sma`
  evaluates `sma[period - 1]` where `period - 1` underflows `usize` when
  `period == 0` (and the resulting index is out of bounds), so the call panics
  in both build modes; this is modelled as `none`.
* IEEE NaN results are modelled as `none` at the value level.
  `RiskMetrics.volatility` is an `Option ℝ`: on a series of exactly two points
  the variance divisor `(returns.len() - 1) as f64` is `0.0` while the
  numerator is exactly `0.0`, so the source computes `0.0 / 0.0 = NaN`.
  `calculate_rsi` with `period == 0` on a non-empty series seeds both Wilder
  averages with `0.0 / 0.0 = NaN` and returns a NaN-filled vector; a NaN is
  not representable in its ℚ-valued output, so `calculate_rsi` maps those
  executions to `none`, and the companion `calculate_rsiN` models them
  faithfully with `none` elements standing for NaN.
-/

/-- `f64::round` as used by the source: round half away from zero, as an
integer-valued function. -/
def roundHalfAway {α : Type} [LinearOrderedField α] [FloorRing α] (x : α) : ℤ :=
  if 0 ≤ x then ⌊x + 1/2⌋ else ⌈x - 1/2⌉

/-- `impl RoundTo for f64` (`indicators.rs` lines 190–195):
`(self * multiplier).round() / multiplier` with `multiplier = 10^precision`. -/
def roundTo {α : Type} [LinearOrderedField α] [FloorRing α] (x : α) (precision : ℕ) : α :=
  ((roundHalfAway (x * 10 ^ precision) : ℤ) : α) / 10 ^ precision

/-- `SignalType` from `models.rs`. -/
inductive SignalType : Type
  | Buy
  | Sell
  | Hold
  | NoSignal
deriving DecidableEq, Repr

/-- `AlphaError` from `errors.rs` (binding-specific variants kept for
completeness; only `InvalidInput` is produced by the analytics core). -/
inductive AlphaError : Type
  | InvalidInput (msg : String)
  | DataNotFound (msg : String)
  | CalculationError (msg : String)
  | NetworkError (msg : String)
  | StorageError (msg : String)
  | ConfigurationError (msg : String)
  | AuthenticationError (msg : String)
  | PermissionDenied (msg : String)
  | RateLimited (msg : String)
  | ServiceUnavailable (msg : String)
  | InternalError (msg : String)
  | PlatformError (msg : String)
  | WasmError (msg : String)
  | JniError (msg : String)
  | SerializationError (msg : String)
deriving DecidableEq, Repr

/-- `MarketData` from `models.rs`.  Prices are exact rationals, timestamps are
integer instants. -/
structure MarketData : Type where
  symbol : String
  timestamp : ℤ
  price : ℚ
  volume : ℕ
  bid : Option ℚ
  ask : Option ℚ
  open_ : Option ℚ
  high : Option ℚ
  low : Option ℚ
deriving DecidableEq, Repr

/-- `MarketData::new` from `models.rs` (the `Utc::now()` timestamp is passed
explicitly). -/
def MarketData.new (symbol : String) (timestamp : ℤ) (price : ℚ) (volume : ℕ) : MarketData :=
  { symbol := symbol, timestamp := timestamp, price := price, volume := volume,
    bid := none, ask := none, open_ := none, high := none, low := none }

/-- `IndicatorResult` from `models.rs`. -/
structure IndicatorResult : Type where
  name : String
  timestamps : List ℤ
  values : List ℚ
  signals : List SignalType
deriving DecidableEq, Repr

/-- `RiskMetrics` from `models.rs`.  The volatility and Sharpe values involve
`f64::sqrt`, so these fields live in `ℝ`.  `volatility` is an `Option ℝ`
because the source's `f64` value is NaN on 2-point series (`none` models the
NaN).  `sharpe` models the source field `sharpe_ratio`. -/
structure RiskMetrics : Type where
  volatility : Option ℝ
  sharpe : Option ℝ
  max_drawdown : ℝ
  beta : Option ℝ

/-- `AnalysisResult` from `models.rs`. -/
structure AnalysisResult : Type where
  symbol : String
  analyzed_at : ℤ
  indicators : List IndicatorResult
  risk_metrics : RiskMetrics
  recommendation : SignalType
  confidence : ℚ

/-- `TradingStrategy` from `models.rs`, slimmed to the fields that matter for
the analysis engine (the engine never reads the strategy argument). -/
structure TradingStrategy : Type where
  id : String
  name : String
  description : String
deriving DecidableEq, Repr

/-! ## Indicator library (`indicators.rs`)

Every function takes the calculator's `precision` field as its first argument
(the source stores it in the `TechnicalIndicators` struct, default 4). -/

/-- The sliding-window loop of `calculate_sma` (`for i in period..prices.len()`),
iterated `steps` times starting at index `i` with running sum `sum`:
`sum = sum - prices[i - period] + prices[i]; sma[i] = (sum / period).round_to(precision)`. -/
def smaRun (precision period : ℕ) (prices : List ℚ) : ℕ → ℚ → ℕ → List ℚ
  | _, _, 0 => []
  | i, sum, steps + 1 =>
    let sum' := sum - prices.getD (i - period) 0 + prices.getD i 0
    roundTo (sum' / (period : ℚ)) precision :: smaRun precision period prices (i + 1) sum' steps

/-- `calculate_sma` (`indicators.rs` lines 27–48).  When `period == 0` the
source reaches `sma[period - 1]`, whose index underflows `usize`; the call
panics, modelled as `none`. -/
def calculate_sma (precision : ℕ) (prices : List ℚ) (period : ℕ) : Option (List ℚ) :=
  if period = 0 then none
  else if prices.length < period then some (List.replicate prices.length 0)
  else
    let sum := (prices.take period).sum
    some (List.replicate (period - 1) 0
      ++ roundTo (sum / (period : ℚ)) precision
        :: smaRun precision period prices period sum (prices.length - period))

/-- The recurrence loop of `calculate_ema` over the remaining prices, carrying
the previous EMA value:
`ema[i] = ((prices[i] - ema[i-1]) * multiplier + ema[i-1]).round_to(precision)`. -/
def emaRun (precision : ℕ) (multiplier : ℚ) : List ℚ → ℚ → List ℚ
  | [], _ => []
  | p :: rest, prev =>
    let e := roundTo ((p - prev) * multiplier + prev) precision
    e :: emaRun precision multiplier rest e

/-- `calculate_ema` (`indicators.rs` lines 51–68).  `multiplier = 2/(period+1)`;
the seed `ema[0] = prices[0]` is NOT rounded by the source. -/
def calculate_ema (precision : ℕ) (prices : List ℚ) (period : ℕ) : List ℚ :=
  match prices with
  | [] => []
  | p :: rest => p :: emaRun precision (2 / ((period : ℚ) + 1)) rest p

/-- The adjacent price changes `prices[i] - prices[i-1]` used by `calculate_rsi`. -/
def priceChanges (prices : List ℚ) : List ℚ :=
  List.zipWith (fun prev curr => curr - prev) prices (prices.drop 1)

/-- The seed averages of `calculate_rsi`: average gain and average loss over the
first `period` changes (`for i in 1..=period`), each divided by `period`. -/
def rsiSeedAvgs (prices : List ℚ) (period : ℕ) : ℚ × ℚ :=
  let seed := (priceChanges prices).take period
  let gains := (seed.map (fun change => if 0 < change then change else 0)).sum
  let losses := (seed.map (fun change => if 0 < change then 0 else -change)).sum
  (gains / (period : ℚ), losses / (period : ℚ))

/-- One emitted RSI value from the current Wilder averages:
`100` when `avg_loss == 0`, else `(100 - 100/(1 + rs)).round_to(precision)`. -/
def rsiValue (precision : ℕ) (avg_gain avg_loss : ℚ) : ℚ :=
  if avg_loss = 0 then 100
  else roundTo (100 - 100 / (1 + avg_gain / avg_loss)) precision

/-- The main loop of `calculate_rsi` (`for i in period..prices.len()`): emit a
value from the current averages, then Wilder-update the averages with the next
change (`avg = (avg * (period - 1) + new) / period`). -/
def rsiRun (precision period : ℕ) (avg_gain avg_loss : ℚ) : List ℚ → List ℚ
  | [] => [rsiValue precision avg_gain avg_loss]
  | change :: rest =>
    let gain := if 0 < change then change else 0
    let loss := if change < 0 then -change else 0
    rsiValue precision avg_gain avg_loss
      :: rsiRun precision period
        ((avg_gain * ((period - 1 : ℕ) : ℚ) + gain) / (period : ℚ))
        ((avg_loss * ((period - 1 : ℕ) : ℚ) + loss) / (period : ℚ)) rest

/-- `calculate_rsi` (`indicators.rs` lines 71–114).  With `period == 0` and a
non-empty series the source's seed averages are `gains / 0.0 = 0.0/0.0 = NaN`
and the returned vector is NaN-filled (for length ≥ 2 the Wilder update also
underflows `period - 1` in debug builds); a NaN-carrying result is not
representable in this ℚ-valued output and is mapped to `none` here — the
NaN-aware `calculate_rsiN` below models those executions faithfully and agrees
with this function on every positive period (`calculate_rsiN_eq`). -/
def calculate_rsi (precision : ℕ) (prices : List ℚ) (period : ℕ) : Option (List ℚ) :=
  if prices.length < period + 1 then some (List.replicate prices.length 0)
  else if period = 0 then none
  else
    let avgs := rsiSeedAvgs prices period
    some (List.replicate period 0
      ++ rsiRun precision period avgs.1 avgs.2 ((priceChanges prices).drop period))

/-- The RSI seed averages with IEEE NaN made explicit: with `period = 0` both
sums are exactly `0.0` (the seed loop `1..=0` is empty) and `0.0 / 0.0` is NaN
(`none`); otherwise the ordinary rational averages. -/
def rsiSeedAvgsN (prices : List ℚ) (period : ℕ) : Option ℚ × Option ℚ :=
  if period = 0 then (none, none)
  else (some (rsiSeedAvgs prices period).1, some (rsiSeedAvgs prices period).2)

/-- One emitted RSI value with NaN made explicit: `NaN == 0.0` is false, so a
NaN average falls into the division branch and the emitted value is NaN. -/
def rsiValueN (precision : ℕ) : Option ℚ → Option ℚ → Option ℚ
  | some avg_gain, some avg_loss => some (rsiValue precision avg_gain avg_loss)
  | _, _ => none

/-- The main RSI loop with NaN made explicit: a NaN average absorbs the Wilder
update, so every emitted value is NaN.  (In debug builds the update also
underflows `period - 1` when `period = 0` and length ≥ 2, aborting instead;
release builds return the NaN-filled vector, which is what this models.) -/
def rsiRunN (precision period : ℕ) (avg_gain avg_loss : Option ℚ) :
    List ℚ → List (Option ℚ)
  | [] => [rsiValueN precision avg_gain avg_loss]
  | change :: rest =>
    let gain := if 0 < change then change else 0
    let loss := if change < 0 then -change else 0
    rsiValueN precision avg_gain avg_loss
      :: rsiRunN precision period
        (avg_gain.map (fun g => (g * ((period - 1 : ℕ) : ℚ) + gain) / (period : ℚ)))
        (avg_loss.map (fun l => (l * ((period - 1 : ℕ) : ℚ) + loss) / (period : ℚ))) rest

/-- `calculate_rsi` with IEEE NaN results modelled as `none` elements: total in
the period.  For positive periods it agrees with `calculate_rsi`
(`calculate_rsiN_eq`); with `period = 0` on a non-empty series every output
element is NaN (`calculate_rsiN_zero_nan`). -/
def calculate_rsiN (precision : ℕ) (prices : List ℚ) (period : ℕ) : List (Option ℚ) :=
  if prices.length < period + 1 then List.replicate prices.length (some 0)
  else
    let avgs := rsiSeedAvgsN prices period
    List.replicate period (some 0)
      ++ rsiRunN precision period avgs.1 avgs.2 ((priceChanges prices).drop period)

/-- `calculate_macd` (`indicators.rs` lines 138–155): MACD line, signal line and
×1000-scaled histogram. -/
def calculate_macd (precision : ℕ) (prices : List ℚ)
    (fast_period slow_period signal_period : ℕ) : List ℚ × List ℚ × List ℚ :=
  let ema_fast := calculate_ema precision prices fast_period
  let ema_slow := calculate_ema precision prices slow_period
  let macd_line := List.zipWith (fun f s => roundTo (f - s) precision) ema_fast ema_slow
  let signal_line := calculate_ema precision macd_line signal_period
  let histogram :=
    List.zipWith (fun m s => roundTo ((m - s) * 1000) precision) macd_line signal_line
  (macd_line, signal_line, histogram)

/-- The per-index Bollinger band pair (`indicators.rs` lines 122–132), using the
already-rounded SMA value as the window mean and the population variance of the
trailing window; `f64::sqrt` forces these values into `ℝ`. -/
noncomputable def bollingerBandAt (precision period : ℕ) (std_dev : ℝ)
    (prices : List ℚ) (sma : List ℚ) (i : ℕ) : ℝ × ℝ :=
  let slice := ((prices.drop (i + 1 - period)).take period)
  let mean := sma.getD i 0
  let variance := ((slice.map (fun price => (price - mean) ^ 2)).sum : ℚ) / (period : ℚ)
  let std_deviation := Real.sqrt (variance : ℝ)
  (roundTo ((mean : ℝ) + std_dev * std_deviation) precision,
   roundTo ((mean : ℝ) - std_dev * std_deviation) precision)

/-- `calculate_bollinger_bands` (`indicators.rs` lines 117–135), returning
`(upper_band, sma, lower_band)`.  Indices below `period - 1` keep the
placeholder `0.0`; `period == 0` panics inside `calculate_sma` (hence `none`). -/
noncomputable def calculate_bollinger_bands (precision : ℕ) (prices : List ℚ)
    (period : ℕ) (std_dev : ℝ) : Option (List ℝ × List ℚ × List ℝ) :=
  match calculate_sma precision prices period with
  | none => none
  | some sma =>
    let upper_band := (List.range prices.length).map fun i =>
      if period - 1 ≤ i then (bollingerBandAt precision period std_dev prices sma i).1 else 0
    let lower_band := (List.range prices.length).map fun i =>
      if period - 1 ≤ i then (bollingerBandAt precision period std_dev prices sma i).2 else 0
    some (upper_band, sma, lower_band)

/-- The per-point RSI signal of `calculate_from_market_data`
(`indicators.rs` lines 168–174): `> 70 → Sell`, `< 30 → Buy`, else `Hold`. -/
def rsiSignal (rsi : ℚ) : SignalType :=
  if 70 < rsi then .Sell else if rsi < 30 then .Buy else .Hold

/-- The `IndicatorResult` assembled by `calculate_from_market_data` for a
non-empty input: RSI(14) values over the input prices with per-point signals.
`14` is a fixed positive period, so the `calculate_rsi` call cannot hit the
period-0 failure and `getD`'s default is never used. -/
def rsiIndicator (precision : ℕ) (data : List MarketData) : IndicatorResult :=
  let prices := data.map (fun d => d.price)
  let rsi_values := (calculate_rsi precision prices 14).getD []
  { name := "RSI(14)",
    timestamps := data.map (fun d => d.timestamp),
    values := rsi_values,
    signals := rsi_values.map rsiSignal }

/-- `calculate_from_market_data` (`indicators.rs` lines 158–182). -/
def calculate_from_market_data (precision : ℕ) (data : List MarketData)
    (_symbol : String) : Except AlphaError IndicatorResult :=
  if data = [] then .error (.InvalidInput "Empty market data")
  else .ok (rsiIndicator precision data)

/-! ## Analysis engine (`analytics.rs`)

`AnalysisEngine` holds a `TechnicalIndicators` with its precision; the
functions below take that precision as their first argument. -/

/-- The simple returns `(curr - prev) / prev` of `calculate_risk_metrics`. -/
def simpleReturns (prices : List ℚ) : List ℚ :=
  List.zipWith (fun prev curr => (curr - prev) / prev) prices (prices.drop 1)

/-- The max-drawdown loop of `calculate_risk_metrics` (`analytics.rs` lines
117–128), over the prices after the first, carrying the running maximum price
and the running maximum drawdown. -/
def maxDrawdownRun : List ℚ → ℚ → ℚ → ℚ
  | [], _, max_drawdown => max_drawdown
  | price :: rest, max_price, max_drawdown =>
    let max_price' := if max_price < price then price else max_price
    let drawdown := (max_price' - price) / max_price'
    let max_drawdown' := if max_drawdown < drawdown then drawdown else max_drawdown
    maxDrawdownRun rest max_price' max_drawdown'

/-- `calculate_risk_metrics` (`analytics.rs` lines 94–145).  Fewer than 2
points yields the all-absent record; otherwise annualized volatility
`sqrt(sample variance of returns) * sqrt(252)`, max drawdown, and a Sharpe
ratio against a 2% risk-free rate when volatility is positive. -/
noncomputable def calculate_risk_metrics (prices : List ℚ) : RiskMetrics :=
  if prices.length < 2 then
    { volatility := some 0, sharpe := none, max_drawdown := 0, beta := none }
  else
    let returns := simpleReturns prices
    let mean_return := returns.sum / (returns.length : ℚ)
    -- With exactly 2 price points there is one return, the divisor
    -- `(returns.len() - 1) as f64` is `0.0`, and the numerator is exactly
    -- `0.0` (the single return equals the mean), so the source computes
    -- `0.0 / 0.0 = NaN`, modelled as `none`; otherwise the divisor is ≥ 1.
    let variance : Option ℚ :=
      if returns.length = 1 then none
      else some (((returns.map (fun r => (r - mean_return) ^ 2)).sum)
        / ((returns.length - 1 : ℕ) : ℚ))
    let volatility : Option ℝ :=
      variance.map (fun v : ℚ => Real.sqrt ((v : ℚ) : ℝ) * Real.sqrt 252)
    let max_drawdown := maxDrawdownRun (prices.drop 1) (prices.headD 0) 0
    let annual_return := ((prices.getLastD 0) / prices.headD 0 - 1) * 252 / (prices.length : ℚ)
    let risk_free_rate : ℝ := 0.02
    { volatility := volatility,
      sharpe :=
        -- `volatility > 0.0` is false for a NaN volatility, so no Sharpe
        -- ratio is produced on the NaN path
        match volatility with
        | some v =>
          if 0 < v then some (((annual_return : ℝ) - risk_free_rate) / v) else none
        | none => none,
      max_drawdown := (max_drawdown : ℝ),
      beta := none }

/-- One step of the vote loop in `generate_recommendation` (`analytics.rs`
lines 152–178), accumulating `(buy_signals, sell_signals)`.  `"RSI(14)"` votes
on its latest value with the 30/70 thresholds; `"MACD"` compares the latest
value with the value at index `len.saturating_sub(9)`; other names are
ignored, as are indicators with empty values. -/
def voteStep (acc : ℕ × ℕ) (indicator : IndicatorResult) : ℕ × ℕ :=
  if indicator.values = [] then acc
  else
    let latest_value := indicator.values.getD (indicator.values.length - 1) 0
    if indicator.name = "RSI(14)" then
      if latest_value < 30 then (acc.1 + 1, acc.2)
      else if 70 < latest_value then (acc.1, acc.2 + 1)
      else acc
    else if indicator.name = "MACD" then
      match indicator.values.getLast?, indicator.values[indicator.values.length - 9]? with
      | some macd, some signal =>
        if signal < macd then (acc.1 + 1, acc.2) else (acc.1, acc.2 + 1)
      | _, _ => acc
    else acc

/-- The accumulated `(buy_signals, sell_signals)` of `generate_recommendation`
before the risk adjustments. -/
def countVotes (indicators : List IndicatorResult) : ℕ × ℕ :=
  indicators.foldl voteStep (0, 0)

/-- `generate_recommendation` (`analytics.rs` lines 148–198): vote count, then
halve buy votes (integer division) when volatility > 0.5, add one sell vote
when max drawdown > 0.2, and compare. -/
noncomputable def generate_recommendation (indicators : List IndicatorResult)
    (risk_metrics : RiskMetrics) : SignalType :=
  let votes := countVotes indicators
  -- `volatility > 0.5` is an IEEE comparison: false when volatility is NaN
  let buy_signals :=
    match risk_metrics.volatility with
    | some v => if (0.5 : ℝ) < v then votes.1 / 2 else votes.1
    | none => votes.1
  let sell_signals := if (0.2 : ℝ) < risk_metrics.max_drawdown then votes.2 + 1 else votes.2
  if sell_signals < buy_signals then .Buy
  else if buy_signals < sell_signals then .Sell
  else .Hold

/-- `calculate_confidence` (`analytics.rs` lines 201–215):
`(#indicators with non-empty values / #indicators) * 100`, then
`.min(100.0).max(0.0)`.  The risk-metrics argument is unused by the source. -/
def calculate_confidence (indicators : List IndicatorResult)
    (_risk_metrics : RiskMetrics) : ℚ :=
  if indicators = [] then 0
  else
    let valid_indicators := (indicators.filter (fun i => !i.values.isEmpty)).length
    let base_confidence := ((valid_indicators : ℚ) / (indicators.length : ℚ)) * 100
    max (min base_confidence 100) 0

/-- The `"SMA(20)"` indicator pushed by `analyze_symbol`.  The period literal
20 is nonzero, so `calculate_sma` cannot hit its period-0 panic and `getD`'s
default is never used. -/
def smaShortIndicator (precision : ℕ) (data : List MarketData) : IndicatorResult :=
  { name := "SMA(20)",
    timestamps := data.map (fun d => d.timestamp),
    values := (calculate_sma precision (data.map (fun d => d.price)) 20).getD [],
    signals := [] }

/-- The `"SMA(50)"` indicator pushed by `analyze_symbol`. -/
def smaLongIndicator (precision : ℕ) (data : List MarketData) : IndicatorResult :=
  { name := "SMA(50)",
    timestamps := data.map (fun d => d.timestamp),
    values := (calculate_sma precision (data.map (fun d => d.price)) 50).getD [],
    signals := [] }

/-- The `"MACD"` indicator pushed by `analyze_symbol`: only the MACD line of
`calculate_macd(prices, 12, 26, 9)` is retained. -/
def macdIndicator (precision : ℕ) (data : List MarketData) : IndicatorResult :=
  { name := "MACD",
    timestamps := data.map (fun d => d.timestamp),
    values := (calculate_macd precision (data.map (fun d => d.price)) 12 26 9).1,
    signals := [] }

/-- The ordered indicator list assembled by `analyze_symbol`:
RSI(14), SMA(20), SMA(50), MACD line. -/
def analysisIndicators (precision : ℕ) (data : List MarketData) : List IndicatorResult :=
  [rsiIndicator precision data, smaShortIndicator precision data,
   smaLongIndicator precision data, macdIndicator precision data]

/-- `analyze_symbol` (`analytics.rs` lines 30–91).  The `Utc::now()` instant is
passed explicitly as `now`; the strategy argument is accepted and ignored, as
in the source.  An empty series fails with `InvalidInput`; otherwise the result
is assembled from the indicator list, the risk metrics, the fused
recommendation and the confidence score. -/
noncomputable def analyze_symbol (precision : ℕ) (now : ℤ) (data : List MarketData)
    (_strategy : Option TradingStrategy) : Except AlphaError AnalysisResult :=
  match data with
  | [] => .error (.InvalidInput "No market data provided")
  | d0 :: _ =>
    match calculate_from_market_data precision data d0.symbol with
    | .error e => .error e
    | .ok rsi_result =>
      let prices := data.map (fun d => d.price)
      let indicators := rsi_result :: [smaShortIndicator precision data,
        smaLongIndicator precision data, macdIndicator precision data]
      let risk_metrics := calculate_risk_metrics prices
      .ok { symbol := d0.symbol,
            analyzed_at := now,
            indicators := indicators,
            risk_metrics := risk_metrics,
            recommendation := generate_recommendation indicators risk_metrics,
            confidence := calculate_confidence indicators risk_metrics }

/-! ## Reference definitions (spec-side) and concrete witness data -/

/-- The sum of the trailing `period` values ending at index `i`,
`P[i-period+1ᐧᐧ=i]`, reading out-of-range entries as 0. -/
def windowSum (prices : List ℚ) (period i : ℕ) : ℚ :=
  ∑ j ∈ Finset.range period, prices.getD (i + 1 - period + j) 0

/-- The naive per-index SMA value, following the spec's words: placeholder for
`i < period - 1`, otherwise the rounded arithmetic mean of the trailing
`period` values. -/
def smaSpecValue (precision : ℕ) (prices : List ℚ) (period i : ℕ) : ℚ :=
  if i + 1 < period then 0
  else roundTo (windowSum prices period i / (period : ℚ)) precision

/-- The naive SMA sequence (the spec-side reference for the refinement claim). -/
def smaSpec (precision : ℕ) (prices : List ℚ) (period : ℕ) : List ℚ :=
  (List.range prices.length).map (smaSpecValue precision prices period)

/-- The simple returns as the spec words them: `r_t = (p_t - p_{t-1}) / p_{t-1}`,
indexed over `t = 1 .. n-1`. -/
def specReturns (prices : List ℚ) : List ℚ :=
  (List.range (prices.length - 1)).map
    (fun t => (prices.getD (t + 1) 0 - prices.getD t 0) / prices.getD t 0)

/-- Sample variance with divisor `n - 1`, as in the spec. -/
def specSampleVariance (rs : List ℚ) : ℚ :=
  ((rs.map (fun r => (r - rs.sum / (rs.length : ℚ)) ^ 2)).sum) / ((rs.length - 1 : ℕ) : ℚ)

/-- Annualized volatility as the spec words it: the sample standard deviation
(divisor n−1) of the simple returns, multiplied by `sqrt 252`. -/
noncomputable def specVolatility (prices : List ℚ) : ℝ :=
  Real.sqrt ((specSampleVariance (specReturns prices) : ℚ) : ℝ) * Real.sqrt 252

/-- The confidence as claim C1 words it ("count of indicator series with ≥ 1
non-placeholder value / total indicator count × 100, clamped"), instantiated
for the four series the engine produces on an input of length `n` with the
spec's placeholder positions: RSI(14) has a non-placeholder value from length
15, SMA(p) from length p, and the EMA-based MACD line from length 1. -/
def claimedConfidence (n : ℕ) : ℚ :=
  let valid : ℚ := (if 15 ≤ n then 1 else 0) + (if 20 ≤ n then 1 else 0)
    + (if 50 ≤ n then 1 else 0) + (if 1 ≤ n then 1 else 0)
  max (min ((valid / 4) * 100) 100) 0

/-- A throwaway indicator record used as a concrete argument in witnesses. -/
def dummyIndicator : IndicatorResult :=
  { name := "X", timestamps := [], values := [], signals := [] }

/-- A throwaway risk record used as a concrete argument in witnesses. -/
noncomputable def dummyRisk : RiskMetrics :=
  { volatility := some 0, sharpe := none, max_drawdown := 0, beta := none }

/-- A 10-point price pulse (1, 1001, then flat 1) that separates the claimed
"9 bars earlier" comparison from the source's `len.saturating_sub(9)` index. -/
def pulseData : List MarketData :=
  [MarketData.new "X" 0 1 1, MarketData.new "X" 1 1001 1, MarketData.new "X" 2 1 1,
   MarketData.new "X" 3 1 1, MarketData.new "X" 4 1 1, MarketData.new "X" 5 1 1,
   MarketData.new "X" 6 1 1, MarketData.new "X" 7 1 1, MarketData.new "X" 8 1 1,
   MarketData.new "X" 9 1 1]

/-! ## Properties of the rounding helper -/

section RoundLemmas

variable {α : Type} [LinearOrderedField α] [FloorRing α]

theorem roundHalfAway_intCast (m : ℤ) : roundHalfAway ((m : α)) = m := by
  have h12 : ⌊(1 : α) / 2⌋ = 0 := Int.floor_eq_zero_iff.mpr (by constructor <;> norm_num)
  have h12' : ⌈(-(1 : α)) / 2⌉ = 0 := by
    rw [Int.ceil_eq_iff]
    constructor <;> norm_num
  unfold roundHalfAway
  by_cases h : (0 : α) ≤ (m : α)
  · rw [if_pos h, show (m : α) + 1 / 2 = 1 / 2 + (m : α) from by ring,
      Int.floor_add_int, h12, zero_add]
  · rw [if_neg h, show (m : α) - 1 / 2 = -(1 : α) / 2 + (m : α) from by ring,
      Int.ceil_add_int, h12', zero_add]

theorem roundTo_intCast (m : ℤ) (p : ℕ) : roundTo ((m : α)) p = m := by
  have h10 : ((10 : α)) ^ p ≠ 0 := pow_ne_zero _ (by norm_num)
  unfold roundTo
  rw [show (m : α) * 10 ^ p = (((m * 10 ^ p : ℤ) : α)) from by push_cast; ring,
    roundHalfAway_intCast]
  push_cast
  rw [mul_div_assoc, div_self h10, mul_one]

theorem roundTo_zero (p : ℕ) : roundTo (0 : α) p = 0 := by
  simpa using roundTo_intCast (α := α) 0 p

/-- Every rounded value is a fixed point of rounding at the same precision:
the source's rounding is idempotent. -/
theorem roundTo_roundTo (x : α) (p : ℕ) : roundTo (roundTo x p) p = roundTo x p := by
  have h10 : ((10 : α)) ^ p ≠ 0 := pow_ne_zero _ (by norm_num)
  show ((roundHalfAway (((roundHalfAway (x * 10 ^ p) : ℤ) : α) / 10 ^ p * 10 ^ p) : ℤ) : α)
      / 10 ^ p = _
  rw [div_mul_cancel₀ _ h10, roundHalfAway_intCast]
  rfl

theorem roundHalfAway_mono {x y : α} (h : x ≤ y) : roundHalfAway x ≤ roundHalfAway y := by
  unfold roundHalfAway
  by_cases hx : (0 : α) ≤ x
  · rw [if_pos hx, if_pos (le_trans hx h)]
    exact Int.floor_le_floor (by linarith)
  · rw [if_neg hx]
    by_cases hy : (0 : α) ≤ y
    · rw [if_pos hy]
      have h1 : ⌈x - 1 / 2⌉ ≤ 0 := Int.ceil_le.mpr (by push_cast; linarith)
      have h2 : (0 : ℤ) ≤ ⌊y + 1 / 2⌋ := Int.le_floor.mpr (by push_cast; linarith)
      omega
    · rw [if_neg hy]
      exact Int.ceil_le_ceil (by linarith)

theorem roundTo_mono {x y : α} (h : x ≤ y) (p : ℕ) : roundTo x p ≤ roundTo y p := by
  have h10 : (0 : α) < 10 ^ p := by positivity
  have hm : roundHalfAway (x * 10 ^ p) ≤ roundHalfAway (y * 10 ^ p) :=
    roundHalfAway_mono (mul_le_mul_of_nonneg_right h h10.le)
  unfold roundTo
  exact (div_le_div_iff_of_pos_right h10).mpr (Int.cast_le.mpr hm)

theorem roundTo_nonneg {x : α} (h : 0 ≤ x) (p : ℕ) : 0 ≤ roundTo x p := by
  have := roundTo_mono h p
  rwa [roundTo_zero] at this

theorem roundTo_le_intCast {x : α} {m : ℤ} (h : x ≤ (m : α)) (p : ℕ) :
    roundTo x p ≤ (m : α) := by
  have := roundTo_mono h p
  rwa [roundTo_intCast] at this

end RoundLemmas

/-! ## RSI structure lemmas -/

theorem rsiValue_bounds (precision : ℕ) {g l : ℚ} (hg : 0 ≤ g) (hl : 0 ≤ l) :
    0 ≤ rsiValue precision g l ∧ rsiValue precision g l ≤ 100 := by
  unfold rsiValue
  by_cases h : l = 0
  · rw [if_pos h]; norm_num
  · rw [if_neg h]
    have hl' : 0 < l := lt_of_le_of_ne hl (Ne.symm h)
    have hrs : 0 ≤ g / l := div_nonneg hg hl'.le
    have h1 : (0 : ℚ) < 1 + g / l := by linarith
    have h2 : 100 / (1 + g / l) ≤ 100 := by
      rw [div_le_iff₀ h1]
      nlinarith
    have h3 : (0 : ℚ) < 100 / (1 + g / l) := by positivity
    constructor
    · exact roundTo_nonneg (by linarith) _
    · have := roundTo_le_intCast (x := 100 - 100 / (1 + g / l)) (m := 100)
        (by push_cast; linarith) precision
      exact_mod_cast this

theorem rsiRun_mem (precision period : ℕ) :
    ∀ (changes : List ℚ) (g l : ℚ), 0 ≤ g → 0 ≤ l →
      ∀ v ∈ rsiRun precision period g l changes,
        (0 ≤ v ∧ v ≤ 100) ∧ ∃ ag al, 0 ≤ ag ∧ 0 ≤ al ∧ v = rsiValue precision ag al := by
  intro changes
  induction changes with
  | nil =>
    intro g l hg hl v hv
    rw [rsiRun, List.mem_singleton] at hv
    subst hv
    exact ⟨rsiValue_bounds _ hg hl, g, l, hg, hl, rfl⟩
  | cons c tl ih =>
    intro g l hg hl v hv
    rw [rsiRun] at hv
    rcases List.mem_cons.mp hv with h | h
    · subst h
      exact ⟨rsiValue_bounds _ hg hl, g, l, hg, hl, rfl⟩
    · have hgain : (0 : ℚ) ≤ (if 0 < c then c else 0) := by split <;> linarith
      have hloss : (0 : ℚ) ≤ (if c < 0 then -c else 0) := by split <;> linarith
      refine ih _ _ ?_ ?_ v h
      · exact div_nonneg (add_nonneg (mul_nonneg hg (by positivity)) hgain) (by positivity)
      · exact div_nonneg (add_nonneg (mul_nonneg hl (by positivity)) hloss) (by positivity)

theorem rsiRun_getD_zero (precision period : ℕ) (g l : ℚ) (changes : List ℚ) :
    (rsiRun precision period g l changes).getD 0 0 = rsiValue precision g l := by
  cases changes <;> rfl

theorem rsiSeedAvgs_nonneg (prices : List ℚ) (period : ℕ) :
    0 ≤ (rsiSeedAvgs prices period).1 ∧ 0 ≤ (rsiSeedAvgs prices period).2 := by
  unfold rsiSeedAvgs
  constructor <;>
  · refine div_nonneg (List.sum_nonneg ?_) (by positivity)
    intro x hx
    rw [List.mem_map] at hx
    obtain ⟨c, _, hc⟩ := hx
    rw [← hc]
    split <;> linarith

/-! ## NaN-aware RSI lemmas -/

theorem rsiRunN_map_some (precision period : ℕ) :
    ∀ (changes : List ℚ) (g l : ℚ),
      rsiRunN precision period (some g) (some l) changes
        = (rsiRun precision period g l changes).map some := by
  intro changes
  induction changes with
  | nil => intro g l; rfl
  | cons c tl ih =>
    intro g l
    simp only [rsiRunN, rsiRun, List.map_cons, Option.map_some']
    rw [ih]
    rfl

theorem rsiRunN_none (precision period : ℕ) :
    ∀ changes : List ℚ, ∀ v ∈ rsiRunN precision period none none changes, v = none := by
  intro changes
  induction changes with
  | nil =>
    intro v hv
    simpa [rsiRunN, rsiValueN] using hv
  | cons c tl ih =>
    intro v hv
    simp only [rsiRunN, Option.map_none'] at hv
    rcases List.mem_cons.mp hv with h | h
    · rw [h]
      rfl
    · exact ih v h

/-- On every positive period the NaN-aware RSI agrees with the ℚ-valued one:
no NaN arises and the outputs coincide elementwise. -/
theorem calculate_rsiN_eq (precision : ℕ) (prices : List ℚ) {period : ℕ}
    (hp : 0 < period) (out : List ℚ)
    (h : calculate_rsi precision prices period = some out) :
    calculate_rsiN precision prices period = out.map some := by
  rw [calculate_rsi] at h
  rw [calculate_rsiN]
  by_cases hlen : prices.length < period + 1
  · rw [if_pos hlen] at h ⊢
    have he := Option.some_injective _ h
    subst he
    rw [List.map_replicate]
  · rw [if_neg hlen] at h ⊢
    rw [if_neg (Nat.pos_iff_ne_zero.mp hp)] at h
    have he := Option.some_injective _ h
    subst he
    simp only [rsiSeedAvgsN, if_neg (Nat.pos_iff_ne_zero.mp hp)]
    rw [List.map_append, List.map_replicate, rsiRunN_map_some]

/-- With `period = 0` on a non-empty series every RSI output element is NaN:
the seed averages are `0.0 / 0.0 = NaN` and NaN propagates through every
emitted value. -/
theorem calculate_rsiN_zero_nan (precision : ℕ) (prices : List ℚ)
    (h : 1 ≤ prices.length) : ∀ v ∈ calculate_rsiN precision prices 0, v = none := by
  rw [calculate_rsiN, if_neg (by omega)]
  intro v hv
  simp only [rsiSeedAvgsN, if_pos rfl, List.replicate_zero, List.nil_append] at hv
  exact rsiRunN_none precision 0 _ v hv

/-! ## Rounded-image membership lemmas -/

theorem emaRun_mem (precision : ℕ) (multiplier : ℚ) :
    ∀ (rest : List ℚ) (prev : ℚ), ∀ v ∈ emaRun precision multiplier rest prev,
      ∃ x, v = roundTo x precision := by
  intro rest
  induction rest with
  | nil => intro prev v hv; simp [emaRun] at hv
  | cons p tl ih =>
    intro prev v hv
    rw [emaRun] at hv
    rcases List.mem_cons.mp hv with h | h
    · exact ⟨_, h⟩
    · exact ih _ v h

theorem zipWith_roundTo_mem (precision : ℕ) (f : ℚ → ℚ → ℚ) :
    ∀ (a b : List ℚ), ∀ v ∈ List.zipWith (fun x y => roundTo (f x y) precision) a b,
      ∃ x, v = roundTo x precision := by
  intro a
  induction a with
  | nil => intro b v hv; simp at hv
  | cons x tl ih =>
    intro b v hv
    cases b with
    | nil => simp at hv
    | cons y tb =>
      rw [List.zipWith_cons_cons] at hv
      rcases List.mem_cons.mp hv with h | h
      · exact ⟨_, h⟩
      · exact ih tb v h

/-! ## Vote-step lemmas -/

theorem voteStep_other (acc : ℕ × ℕ) (ind : IndicatorResult)
    (h1 : ind.name ≠ "RSI(14)") (h2 : ind.name ≠ "MACD") : voteStep acc ind = acc := by
  simp only [voteStep]
  by_cases hv : ind.values = []
  · rw [if_pos hv]
  · rw [if_neg hv, if_neg h1, if_neg h2]

theorem voteStep_macd (acc : ℕ × ℕ) (ind : IndicatorResult)
    (hname : ind.name = "MACD") (hne : ind.values ≠ []) :
    voteStep acc ind =
      if ind.values.getD (ind.values.length - 9) 0
          < ind.values.getD (ind.values.length - 1) 0
      then (acc.1 + 1, acc.2) else (acc.1, acc.2 + 1) := by
  have hlen : 0 < ind.values.length := List.length_pos.mpr hne
  have h9 : ind.values.length - 9 < ind.values.length := by omega
  have h1 : ind.values.length - 1 < ind.values.length := by omega
  unfold voteStep
  rw [if_neg hne, if_neg (by rw [hname]; decide), if_pos hname,
    List.getLast?_eq_getElem?, List.getElem?_eq_getElem h1, List.getElem?_eq_getElem h9,
    List.getD_eq_getElem _ _ h9, List.getD_eq_getElem _ _ h1]

theorem voteStep_rsi (acc : ℕ × ℕ) (ind : IndicatorResult)
    (hname : ind.name = "RSI(14)") (hne : ind.values ≠ []) :
    voteStep acc ind =
      if ind.values.getD (ind.values.length - 1) 0 < 30 then (acc.1 + 1, acc.2)
      else if 70 < ind.values.getD (ind.values.length - 1) 0 then (acc.1, acc.2 + 1)
      else acc := by
  unfold voteStep
  rw [if_neg hne, if_pos hname]


/-! ## Length facts for the indicator library -/

theorem smaRun_length (precision period : ℕ) (prices : List ℚ) :
    ∀ (steps i : ℕ) (sum : ℚ), (smaRun precision period prices i sum steps).length = steps := by
  intro steps
  induction steps with
  | zero => intro i sum; rfl
  | succ n ih => intro i sum; simp [smaRun, ih]

theorem calculate_sma_isSome (precision : ℕ) (prices : List ℚ) {period : ℕ}
    (hp : 0 < period) : ∃ out, calculate_sma precision prices period = some out := by
  unfold calculate_sma
  rw [if_neg (Nat.pos_iff_ne_zero.mp hp)]
  by_cases h : prices.length < period
  · exact ⟨_, by rw [if_pos h]⟩
  · exact ⟨_, by rw [if_neg h]⟩

theorem calculate_sma_length (precision : ℕ) (prices : List ℚ) (period : ℕ)
    (out : List ℚ) (h : calculate_sma precision prices period = some out) :
    out.length = prices.length := by
  unfold calculate_sma at h
  by_cases h0 : period = 0
  · rw [if_pos h0] at h; exact absurd h (by simp)
  · rw [if_neg h0] at h
    by_cases hlen : prices.length < period
    · rw [if_pos hlen] at h
      have := Option.some_injective _ h
      subst this
      simp
    · rw [if_neg hlen] at h
      have := (Option.some_injective _ h)
      subst this
      simp [smaRun_length]
      omega

theorem emaRun_length (precision : ℕ) (multiplier : ℚ) :
    ∀ (rest : List ℚ) (prev : ℚ), (emaRun precision multiplier rest prev).length = rest.length := by
  intro rest
  induction rest with
  | nil => intro prev; rfl
  | cons p tl ih => intro prev; simp [emaRun, ih]

theorem calculate_ema_length (precision : ℕ) (prices : List ℚ) (period : ℕ) :
    (calculate_ema precision prices period).length = prices.length := by
  cases prices with
  | nil => rfl
  | cons p rest => simp [calculate_ema, emaRun_length]

theorem rsiRun_length (precision period : ℕ) :
    ∀ (changes : List ℚ) (g l : ℚ),
      (rsiRun precision period g l changes).length = changes.length + 1 := by
  intro changes
  induction changes with
  | nil => intro g l; rfl
  | cons c tl ih => intro g l; simp [rsiRun, ih]

theorem priceChanges_length (prices : List ℚ) :
    (priceChanges prices).length = prices.length - 1 := by
  simp [priceChanges]

theorem calculate_rsi_isSome (precision : ℕ) (prices : List ℚ) {period : ℕ}
    (hp : 0 < period) : ∃ out, calculate_rsi precision prices period = some out := by
  unfold calculate_rsi
  by_cases h : prices.length < period + 1
  · exact ⟨_, by rw [if_pos h]⟩
  · rw [if_neg h, if_neg (Nat.pos_iff_ne_zero.mp hp)]
    exact ⟨_, rfl⟩

theorem calculate_rsi_length (precision : ℕ) (prices : List ℚ) (period : ℕ)
    (out : List ℚ) (h : calculate_rsi precision prices period = some out) :
    out.length = prices.length := by
  unfold calculate_rsi at h
  by_cases hlen : prices.length < period + 1
  · rw [if_pos hlen] at h
    have := Option.some_injective _ h
    subst this
    simp
  · rw [if_neg hlen] at h
    by_cases h0 : period = 0
    · rw [if_pos h0] at h; exact absurd h (by simp)
    · rw [if_neg h0] at h
      have := Option.some_injective _ h
      subst this
      simp [rsiRun_length, priceChanges_length]
      omega

theorem macd_line_length (precision : ℕ) (prices : List ℚ) (fast slow signal : ℕ) :
    (calculate_macd precision prices fast slow signal).1.length = prices.length := by
  simp [calculate_macd, calculate_ema_length]

/-! ## The naive SMA reference definition and the sliding-window refinement -/


theorem windowSum_succ (prices : List ℚ) {period i : ℕ} (hi : period ≤ i + 1) :
    windowSum prices period (i + 1) =
      windowSum prices period i - prices.getD (i + 1 - period) 0
        + prices.getD (i + 1) 0 := by
  unfold windowSum
  have key : ∀ j, i + 1 + 1 - period + j = i + 1 - period + (j + 1) := by
    intro j; omega
  rw [Finset.sum_congr rfl (fun j _ => by rw [key j])]
  have h1 := Finset.sum_range_succ' (fun j => prices.getD (i + 1 - period + j) 0) period
  have h2 := Finset.sum_range_succ (fun j => prices.getD (i + 1 - period + j) 0) period
  have h3 : i + 1 - period + period = i + 1 := by omega
  have h4 : i + 1 - period + 0 = i + 1 - period := by omega
  rw [h3] at h2
  rw [h4] at h1
  linarith [h1, h2]

theorem sum_take_eq (l : List ℚ) (n : ℕ) :
    (l.take n).sum = ∑ j ∈ Finset.range n, l.getD j 0 := by
  induction l generalizing n with
  | nil => simp
  | cons x tl ih =>
    cases n with
    | zero => simp
    | succ m =>
      rw [List.take_succ_cons, List.sum_cons, ih m,
        Finset.sum_range_succ' (fun j => (x :: tl).getD j 0) m]
      simp [add_comm]

theorem smaRun_eq (precision period : ℕ) (prices : List ℚ) (hp : 0 < period) :
    ∀ (steps i : ℕ) (sum : ℚ), period ≤ i → sum = windowSum prices period (i - 1) →
      smaRun precision period prices i sum steps
        = (List.range' i steps).map
            (fun j => roundTo (windowSum prices period j / (period : ℚ)) precision) := by
  intro steps
  induction steps with
  | zero => intro i sum _ _; rfl
  | succ n ih =>
    intro i sum hi hsum
    have hi1 : 1 ≤ i := le_trans hp hi
    have hstep : sum - prices.getD (i - period) 0 + prices.getD i 0
        = windowSum prices period i := by
      have h := @windowSum_succ prices period (i - 1) (by omega)
      have h1 : i - 1 + 1 = i := by omega
      rw [h1] at h
      rw [hsum, ← h]
    show roundTo ((sum - prices.getD (i - period) 0 + prices.getD i 0) / (period : ℚ))
        precision :: smaRun precision period prices (i + 1) _ n = _
    rw [List.range'_succ, List.map_cons, hstep]
    congr 1
    exact ih (i + 1) (windowSum prices period i) (by omega) (by simp)

/-- The running-sum `calculate_sma` coincides with the naive definition for
every positive period. -/
theorem calculate_sma_eq_smaSpec (precision : ℕ) (prices : List ℚ) {period : ℕ}
    (hp : 0 < period) :
    calculate_sma precision prices period = some (smaSpec precision prices period) := by
  unfold calculate_sma
  rw [if_neg (Nat.pos_iff_ne_zero.mp hp)]
  by_cases hlen : prices.length < period
  · rw [if_pos hlen]
    congr 1
    symm
    rw [List.eq_replicate_iff]
    refine ⟨by simp [smaSpec], ?_⟩
    intro b hb
    rw [smaSpec, List.mem_map] at hb
    obtain ⟨i, hi, hb⟩ := hb
    rw [List.mem_range] at hi
    rw [← hb, smaSpecValue, if_pos (by omega)]
  · rw [if_neg hlen]
    show some (List.replicate (period - 1) 0
        ++ roundTo ((prices.take period).sum / (period : ℚ)) precision
          :: smaRun precision period prices period (prices.take period).sum
            (prices.length - period))
      = some (smaSpec precision prices period)
    congr 1
    have hsum : (prices.take period).sum = windowSum prices period (period - 1) := by
      rw [sum_take_eq, windowSum]
      apply Finset.sum_congr rfl
      intro j _
      congr 1
      omega
    rw [smaRun_eq precision period prices hp (prices.length - period) period
      (prices.take period).sum le_rfl (by rw [hsum]),
      smaSpec, List.range_eq_range']
    have hsplit : List.range' 0 prices.length
        = List.range' 0 (period - 1) ++ List.range' (period - 1) (prices.length - period + 1) := by
      have h := List.range'_append_1 0 (period - 1) (prices.length - period + 1)
      rw [Nat.zero_add] at h
      rw [h]
      congr 1
      omega
    rw [hsplit, List.map_append, List.range'_succ, List.map_cons]
    congr 1
    · symm
      rw [List.eq_replicate_iff]
      refine ⟨by simp, ?_⟩
      intro b hb
      rw [List.mem_map] at hb
      obtain ⟨i, hi, hb⟩ := hb
      rw [List.mem_range'_1] at hi
      rw [← hb, smaSpecValue, if_pos (by omega)]
    congr 1
    · rw [smaSpecValue, if_neg (by omega), hsum]
    · have hp1 : period - 1 + 1 = period := by omega
      rw [hp1]
      apply List.map_congr_left
      intro i hi
      rw [List.mem_range'_1] at hi
      rw [smaSpecValue, if_neg (by omega)]

/-! ## Analysis-engine plumbing lemmas -/

theorem cfmd_cons (precision : ℕ) (d : MarketData) (tl : List MarketData) (s : String) :
    calculate_from_market_data precision (d :: tl) s
      = .ok (rsiIndicator precision (d :: tl)) := by
  rw [calculate_from_market_data, if_neg (List.cons_ne_nil d tl)]

theorem analyze_symbol_nil (precision : ℕ) (now : ℤ) (strategy : Option TradingStrategy) :
    analyze_symbol precision now [] strategy
      = .error (.InvalidInput "No market data provided") := rfl

theorem analyze_symbol_cons (precision : ℕ) (now : ℤ) (d : MarketData)
    (tl : List MarketData) (strategy : Option TradingStrategy) :
    analyze_symbol precision now (d :: tl) strategy
      = .ok { symbol := d.symbol,
              analyzed_at := now,
              indicators := analysisIndicators precision (d :: tl),
              risk_metrics := calculate_risk_metrics ((d :: tl).map (fun x => x.price)),
              recommendation := generate_recommendation (analysisIndicators precision (d :: tl))
                (calculate_risk_metrics ((d :: tl).map (fun x => x.price))),
              confidence := calculate_confidence (analysisIndicators precision (d :: tl))
                (calculate_risk_metrics ((d :: tl).map (fun x => x.price))) } := by
  simp only [analyze_symbol, cfmd_cons]
  rfl

theorem rsiIndicator_values_length (precision : ℕ) (data : List MarketData) :
    (rsiIndicator precision data).values.length = data.length := by
  obtain ⟨out, hout⟩ :=
    calculate_rsi_isSome precision (data.map fun d => d.price) (by norm_num : (0 : ℕ) < 14)
  have hlen := calculate_rsi_length _ _ _ _ hout
  simp only [rsiIndicator, hout, Option.getD_some]
  simpa using hlen

theorem smaShortIndicator_values_length (precision : ℕ) (data : List MarketData) :
    (smaShortIndicator precision data).values.length = data.length := by
  obtain ⟨out, hout⟩ :=
    calculate_sma_isSome precision (data.map fun d => d.price) (by norm_num : (0 : ℕ) < 20)
  have hlen := calculate_sma_length _ _ _ _ hout
  simp only [smaShortIndicator, hout, Option.getD_some]
  simpa using hlen

theorem smaLongIndicator_values_length (precision : ℕ) (data : List MarketData) :
    (smaLongIndicator precision data).values.length = data.length := by
  obtain ⟨out, hout⟩ :=
    calculate_sma_isSome precision (data.map fun d => d.price) (by norm_num : (0 : ℕ) < 50)
  have hlen := calculate_sma_length _ _ _ _ hout
  simp only [smaLongIndicator, hout, Option.getD_some]
  simpa using hlen

theorem macdIndicator_values_length (precision : ℕ) (data : List MarketData) :
    (macdIndicator precision data).values.length = data.length := by
  simp [macdIndicator, macd_line_length]

theorem values_isEmpty_false {ind : IndicatorResult} {n : ℕ}
    (h : ind.values.length = n + 1) : ind.values.isEmpty = false := by
  cases hv : ind.values with
  | nil => rw [hv] at h; simp at h
  | cons a l => simp [hv]

theorem confidence_analysis_eq_100 (precision : ℕ) (d : MarketData)
    (tl : List MarketData) (rm : RiskMetrics) :
    calculate_confidence (analysisIndicators precision (d :: tl)) rm = 100 := by
  have e1 : (rsiIndicator precision (d :: tl)).values.isEmpty = false :=
    values_isEmpty_false (n := tl.length) (by rw [rsiIndicator_values_length]; rfl)
  have e2 : (smaShortIndicator precision (d :: tl)).values.isEmpty = false :=
    values_isEmpty_false (n := tl.length) (by rw [smaShortIndicator_values_length]; rfl)
  have e3 : (smaLongIndicator precision (d :: tl)).values.isEmpty = false :=
    values_isEmpty_false (n := tl.length) (by rw [smaLongIndicator_values_length]; rfl)
  have e4 : (macdIndicator precision (d :: tl)).values.isEmpty = false :=
    values_isEmpty_false (n := tl.length) (by rw [macdIndicator_values_length]; rfl)
  simp only [calculate_confidence, analysisIndicators]
  rw [if_neg (by simp)]
  simp only [List.filter_cons, e1, e2, e3, e4, Bool.not_false, if_pos, List.filter_nil,
    List.length_cons, List.length_nil]
  norm_num

theorem calculate_bollinger_isSome (precision : ℕ) (prices : List ℚ) {period : ℕ}
    (hp : 0 < period) (k : ℝ) :
    ∃ out, calculate_bollinger_bands precision prices period k = some out := by
  obtain ⟨sma, hsma⟩ := calculate_sma_isSome precision prices hp
  simp only [calculate_bollinger_bands, hsma]
  exact ⟨_, rfl⟩

/-! ## Spec-side reference definitions for the risk metrics -/


theorem simpleReturns_eq_specReturns : ∀ prices : List ℚ,
    simpleReturns prices = specReturns prices
  | [] => rfl
  | [_] => rfl
  | p :: q :: tl => by
    have ih := simpleReturns_eq_specReturns (q :: tl)
    show ((q - p) / p) :: simpleReturns (q :: tl) = _
    rw [ih, specReturns, specReturns]
    simp only [List.length_cons, Nat.add_sub_cancel, List.range_succ_eq_map,
      List.map_cons, List.map_map]
    congr 1

/-! ## Claim theorems -/

/-- A length fact used to locate the NaN case: a price series of length n has
n - 1 simple returns. -/
theorem simpleReturns_length (prices : List ℚ) :
    (simpleReturns prices).length = prices.length - 1 := by
  simp [simpleReturns]

/-- C4 counterexample: on the 2-point series [1, 2] the source computes the
variance as `0.0 / 0.0` (one return, divisor `(returns.len() - 1) as f64 = 0.0`
and numerator exactly `0.0`), so the volatility is an IEEE NaN (`none`) — not a
float ≥ 0. -/
theorem claim_C4_counterexample :
    (calculate_risk_metrics [1, 2]).volatility = none
    ∧ ∀ v : ℝ, ¬ (calculate_risk_metrics [1, 2]).volatility = some v := by
  have hv : (calculate_risk_metrics [1, 2]).volatility = none := by
    have hlen1 : (simpleReturns [(1 : ℚ), 2]).length = 1 := by
      rw [simpleReturns_length]
      rfl
    simp only [calculate_risk_metrics]
    rw [if_neg (by norm_num), if_pos hlen1]
    rfl
  refine ⟨hv, fun v hvv => ?_⟩
  rw [hv] at hvv
  exact absurd hvv (by simp)

/-- C4 (amended): the volatility is `some 0` for fewer than 2 points; on a
series of exactly 2 points the variance is `0.0 / 0.0` and the volatility is
NaN (`none`); for 3 or more points it equals the sample standard deviation
(divisor n−1) of the simple returns multiplied by `sqrt 252`; and every
non-NaN volatility value is ≥ 0. -/
theorem claim_C4 (prices : List ℚ) :
    (∀ v : ℝ, (calculate_risk_metrics prices).volatility = some v → 0 ≤ v)
    ∧ (prices.length < 2 → (calculate_risk_metrics prices).volatility = some 0)
    ∧ (prices.length = 2 → (calculate_risk_metrics prices).volatility = none)
    ∧ (3 ≤ prices.length →
        (calculate_risk_metrics prices).volatility = some (specVolatility prices)) := by
  by_cases h2 : prices.length < 2
  · have hv : (calculate_risk_metrics prices).volatility = some 0 := by
      simp [calculate_risk_metrics, if_pos h2]
    refine ⟨?_, fun _ => hv, fun h => absurd h (by omega), fun h => absurd h (by omega)⟩
    intro v hvv
    rw [hv, Option.some_inj] at hvv
    rw [← hvv]
  · by_cases h3 : prices.length = 2
    · have hlen1 : (simpleReturns prices).length = 1 := by
        rw [simpleReturns_length]
        omega
      have hv : (calculate_risk_metrics prices).volatility = none := by
        simp only [calculate_risk_metrics]
        rw [if_neg h2, if_pos hlen1]
        rfl
      refine ⟨?_, fun h => absurd h h2, fun _ => hv, fun h => absurd h (by omega)⟩
      intro v hvv
      rw [hv] at hvv
      exact absurd hvv (by simp)
    · have hne1 : ¬ (simpleReturns prices).length = 1 := by
        rw [simpleReturns_length]
        omega
      have hv : (calculate_risk_metrics prices).volatility
          = some (specVolatility prices) := by
        simp only [calculate_risk_metrics]
        rw [if_neg h2, if_neg hne1]
        rw [specVolatility, ← simpleReturns_eq_specReturns, specSampleVariance]
        rfl
      refine ⟨?_, fun h => absurd h h2, fun h => absurd h h3, fun _ => hv⟩
      intro v hvv
      rw [hv, Option.some_inj] at hvv
      rw [← hvv, specVolatility]
      exact mul_nonneg (Real.sqrt_nonneg _) (Real.sqrt_nonneg _)

/-- C4 witness: the amended volatility cases at concrete series of lengths 1,
2 and 3, with the nonnegativity of the defined value. -/
theorem claim_C4_witness :
    (calculate_risk_metrics [1]).volatility = some 0
    ∧ (calculate_risk_metrics [1, 2]).volatility = none
    ∧ (calculate_risk_metrics [1, 2, 4]).volatility = some (specVolatility [1, 2, 4])
    ∧ (0 : ℝ) ≤ specVolatility [1, 2, 4] := by
  have h1 := (claim_C4 [1]).2.1 (by norm_num)
  have h2 := (claim_C4 [1, 2]).2.2.1 (by norm_num)
  have h3 := (claim_C4 [1, 2, 4]).2.2.2 (by norm_num)
  exact ⟨h1, h2, h3, (claim_C4 [1, 2, 4]).1 _ h3⟩

/-- C6 counterexample: the claim quantifies over every period, but at period 0
the source never takes the `prices.len() < period` early return and evaluates
`sma[period - 1]`, whose usize index underflows — the call panics (modelled as
`none`) while the naive definition still denotes a value list. -/
theorem claim_C6_counterexample :
    calculate_sma 4 [1] 0 = none ∧ smaSpec 4 [1] 0 = [0]
      ∧ calculate_sma 4 [1] 0 ≠ some (smaSpec 4 [1] 0) := by
  refine ⟨rfl, ?_, by simp [calculate_sma]⟩
  simp [smaSpec, smaSpecValue, windowSum, List.range_succ, roundTo_zero]

/-- C6 (amended): for every price sequence and every positive period, the
running-sum sliding-window SMA equals the naive definition — placeholder 0.0
for `i < period - 1`, otherwise the rounded arithmetic mean of the trailing
`period` values; in particular SMA([1,2,3,4,5], 3) = [0,0,2,3,4].  (At period 0
the source panics, see the counterexample.) -/
theorem claim_C6 (precision : ℕ) (prices : List ℚ) (period : ℕ) (hp : 0 < period) :
    calculate_sma precision prices period = some (smaSpec precision prices period)
    ∧ calculate_sma 4 [1, 2, 3, 4, 5] 3 = some [0, 0, 2, 3, 4] := by
  refine ⟨calculate_sma_eq_smaSpec precision prices hp, ?_⟩
  norm_num [calculate_sma, smaRun, roundTo, roundHalfAway, List.replicate]

/-- C6 witness: the amended refinement at a concrete series and period. -/
theorem claim_C6_witness :
    calculate_sma 4 [1, 2] 2 = some (smaSpec 4 [1, 2] 2)
    ∧ calculate_sma 4 [1, 2, 3, 4, 5] 3 = some [0, 0, 2, 3, 4] :=
  claim_C6 4 [1, 2] 2 (by norm_num)

/-- C7: `analyze_symbol` fails with `InvalidInput` exactly on the empty series;
every non-empty series yields an `AnalysisResult`; and for every (positive)
period the indicator functions return a value on arbitrarily short or
degenerate input — `calculate_ema` and `calculate_macd` are total functions by
construction. -/
theorem claim_C7 (precision : ℕ) (now : ℤ) (strategy : Option TradingStrategy)
    (data : List MarketData) :
    (analyze_symbol precision now data strategy
        = .error (.InvalidInput "No market data provided") ↔ data = [])
      ∧ (data ≠ [] → ∃ r, analyze_symbol precision now data strategy = .ok r)
      ∧ (∀ (prices : List ℚ) (period : ℕ) (k : ℝ), 0 < period →
          (∃ o, calculate_sma precision prices period = some o)
          ∧ (∃ o, calculate_rsi precision prices period = some o)
          ∧ (∃ o, calculate_bollinger_bands precision prices period k = some o)) := by
  refine ⟨?_, ?_, ?_⟩
  · cases data with
    | nil => simp [analyze_symbol_nil]
    | cons d tl => simp [analyze_symbol_cons]
  · intro h
    cases data with
    | nil => exact absurd rfl h
    | cons d tl => exact ⟨_, analyze_symbol_cons precision now d tl strategy⟩
  · intro prices period k hp
    exact ⟨calculate_sma_isSome precision prices hp, calculate_rsi_isSome precision prices hp,
      calculate_bollinger_isSome precision prices hp k⟩

/-- C7 witness: concrete instances — the empty series errs with `InvalidInput`,
a one-point series succeeds, and SMA/RSI/Bollinger succeed on an empty price
list. -/
theorem claim_C7_witness :
    (analyze_symbol 4 0 [] none = .error (.InvalidInput "No market data provided"))
    ∧ (∃ r, analyze_symbol 4 0 [MarketData.new "AAPL" 0 100 1000] none = .ok r)
    ∧ (∃ o, calculate_sma 4 [] 3 = some o)
    ∧ (∃ o, calculate_rsi 4 [] 3 = some o)
    ∧ (∃ o, calculate_bollinger_bands 4 [] 3 1 = some o) := by
  have h1 := (claim_C7 4 0 none []).1.mpr rfl
  have h2 := (claim_C7 4 0 none [MarketData.new "AAPL" 0 100 1000]).2.1 (by simp)
  have h3 := (claim_C7 4 0 none []).2.2 [] 3 1 (by norm_num)
  exact ⟨h1, h2, h3.1, h3.2.1, h3.2.2⟩

/-- C8 counterexample: the claim quantifies over every period, but at period 0
`calculate_sma` panics (usize underflow then an out-of-bounds index) instead of
returning a sequence of the input's length. -/
theorem claim_C8_counterexample : calculate_sma 4 [1, 2] 0 = none := rfl

/-- C8 (amended): for every input price sequence of length L and every
*positive* period P, SMA, EMA and RSI each return a sequence of length
exactly L. -/
theorem claim_C8 (precision : ℕ) (prices : List ℚ) (period : ℕ) (hp : 0 < period) :
    (∃ out, calculate_sma precision prices period = some out
        ∧ out.length = prices.length)
    ∧ (calculate_ema precision prices period).length = prices.length
    ∧ (∃ out, calculate_rsi precision prices period = some out
        ∧ out.length = prices.length) := by
  obtain ⟨o1, h1⟩ := calculate_sma_isSome precision prices hp
  obtain ⟨o2, h2⟩ := calculate_rsi_isSome precision prices hp
  exact ⟨⟨o1, h1, calculate_sma_length _ _ _ _ h1⟩, calculate_ema_length _ _ _,
    ⟨o2, h2, calculate_rsi_length _ _ _ _ h2⟩⟩

/-- C8 witness: the length property at a concrete series and period. -/
theorem claim_C8_witness :
    (∃ out, calculate_sma 4 [1, 2, 3] 2 = some out ∧ out.length = 3)
    ∧ (calculate_ema 4 [1, 2, 3] 2).length = 3
    ∧ (∃ out, calculate_rsi 4 [1, 2, 3] 2 = some out ∧ out.length = 3) := by
  have h := claim_C8 4 [1, 2, 3] 2 (by norm_num)
  simpa using h

theorem except_map_ok {ε α β : Type} (f : α → β) (x : α) :
    Except.map f (Except.ok x : Except ε α) = Except.ok (f x) := rfl


/-- C1 counterexample: on a one-point series only the MACD line has a
non-placeholder value, so the claim's formula yields 25, but the source counts
series with a *non-empty values vector* (all four) and returns 100. -/
theorem claim_C1_counterexample :
    (analyze_symbol 4 0 [MarketData.new "A" 0 1 1] none).map (fun r => r.confidence)
      = .ok 100
    ∧ claimedConfidence 1 = 25
    ∧ (100 : ℚ) ≠ 25 := by
  refine ⟨?_, by norm_num [claimedConfidence], by norm_num⟩
  rw [analyze_symbol_cons, except_map_ok]
  exact congrArg Except.ok (confidence_analysis_eq_100 4 (MarketData.new "A" 0 1 1) []
    (calculate_risk_metrics (([MarketData.new "A" 0 1 1]).map (fun x => x.price))))

/-- C1 (amended): the source's confidence counts indicator series with a
non-empty values sequence, divided by the total count, × 100 and clamped to
[0,100]; since all four series always have the input's length, the confidence
of every analysis of a non-empty series equals 100. -/
theorem claim_C1 (precision : ℕ) (now : ℤ) (strategy : Option TradingStrategy)
    (d : MarketData) (tl : List MarketData) :
    (analyze_symbol precision now (d :: tl) strategy).map (fun r => r.confidence)
      = .ok 100
    ∧ (∀ (inds : List IndicatorResult) (rm : RiskMetrics), inds ≠ [] →
        calculate_confidence inds rm
          = max (min ((((inds.filter (fun i => !i.values.isEmpty)).length : ℚ)
              / (inds.length : ℚ)) * 100) 100) 0) := by
  constructor
  · rw [analyze_symbol_cons, except_map_ok]
    exact congrArg Except.ok (confidence_analysis_eq_100 precision d tl
      (calculate_risk_metrics ((d :: tl).map (fun x => x.price))))
  · intro inds rm h
    rw [calculate_confidence, if_neg h]


/-- C1 witness: the amended confidence at a concrete series and indicator
list. -/
theorem claim_C1_witness :
    (analyze_symbol 4 7 [MarketData.new "B" 0 2 1] none).map (fun r => r.confidence)
      = .ok 100
    ∧ calculate_confidence [dummyIndicator] dummyRisk
        = max (min (((([dummyIndicator].filter
            (fun i => !i.values.isEmpty)).length : ℚ) / ([dummyIndicator].length : ℚ))
              * 100) 100) 0 := by
  have h := claim_C1 4 7 none (MarketData.new "B" 0 2 1) []
  exact ⟨h.1, h.2 [dummyIndicator] dummyRisk (by simp)⟩

/-- C3 counterexample: the claim demands equal `AnalysisResult`s (including the
`analyzed_at` field) for two invocations on the same series, but `analyzed_at`
is the invocation's `Utc::now()` instant, so two invocations at different
instants differ. -/
theorem claim_C3_counterexample :
    analyze_symbol 4 0 [MarketData.new "A" 0 1 1] none
      ≠ analyze_symbol 4 1 [MarketData.new "A" 0 1 1] none := by
  rw [analyze_symbol_cons, analyze_symbol_cons]
  intro h
  simp only [Except.ok.injEq, AnalysisResult.mk.injEq] at h
  exact absurd h.2.1 (by norm_num)

/-- C3 (amended): the analysis is deterministic in every field except
`analyzed_at`: two invocations on the same series agree on symbol, indicators,
risk metrics, recommendation and confidence, while `analyzed_at` equals each
invocation's clock instant. -/
theorem claim_C3 (precision : ℕ) (now₁ now₂ : ℤ) (s₁ s₂ : Option TradingStrategy)
    (data : List MarketData) (r₁ r₂ : AnalysisResult)
    (h₁ : analyze_symbol precision now₁ data s₁ = .ok r₁)
    (h₂ : analyze_symbol precision now₂ data s₂ = .ok r₂) :
    r₁.symbol = r₂.symbol ∧ r₁.indicators = r₂.indicators
    ∧ r₁.risk_metrics = r₂.risk_metrics ∧ r₁.recommendation = r₂.recommendation
    ∧ r₁.confidence = r₂.confidence ∧ r₁.analyzed_at = now₁ ∧ r₂.analyzed_at = now₂ := by
  cases data with
  | nil =>
    rw [analyze_symbol_nil] at h₁
    exact absurd h₁ (by simp)
  | cons d tl =>
    rw [analyze_symbol_cons] at h₁ h₂
    have e₁ := Except.ok.inj h₁
    have e₂ := Except.ok.inj h₂
    rw [← e₁, ← e₂]
    exact ⟨rfl, rfl, rfl, rfl, rfl, rfl, rfl⟩

/-- C3 witness: two concrete invocations at instants 0 and 1. -/
theorem claim_C3_witness :
    ∃ r₁ r₂ : AnalysisResult,
      analyze_symbol 4 0 [MarketData.new "A" 0 1 1] none = .ok r₁
      ∧ analyze_symbol 4 1 [MarketData.new "A" 0 1 1] none = .ok r₂
      ∧ r₁.indicators = r₂.indicators ∧ r₁.confidence = r₂.confidence
      ∧ r₁.analyzed_at = 0 ∧ r₂.analyzed_at = 1 := by
  refine ⟨_, _, analyze_symbol_cons 4 0 (MarketData.new "A" 0 1 1) [] none,
    analyze_symbol_cons 4 1 (MarketData.new "A" 0 1 1) [] none, ?_⟩
  have h := claim_C3 4 0 1 none none [MarketData.new "A" 0 1 1] _ _
    (analyze_symbol_cons 4 0 (MarketData.new "A" 0 1 1) [] none)
    (analyze_symbol_cons 4 1 (MarketData.new "A" 0 1 1) [] none)
  exact ⟨h.2.1, h.2.2.2.2.1, h.2.2.2.2.2.1, h.2.2.2.2.2.2⟩

theorem replicate_getD_zero (n k : ℕ) : (List.replicate n (0 : ℚ)).getD k 0 = 0 := by
  rw [List.getD_eq_getElem?_getD, List.getElem?_replicate]
  split <;> rfl

/-- C10: on every non-empty series with fewer than 15 points, all RSI(14)
values are the placeholder 0.0, every per-point signal is Buy (the 70/30
thresholds applied to the placeholder), the RSI latest-value rule contributes
exactly one buy vote to the fusion, and the RSI series heads the result's
indicator list. -/
theorem claim_C10 (precision : ℕ) (now : ℤ) (strategy : Option TradingStrategy)
    (d : MarketData) (tl : List MarketData) (h : (d :: tl).length < 15) :
    (rsiIndicator precision (d :: tl)).values = List.replicate (d :: tl).length 0
    ∧ (rsiIndicator precision (d :: tl)).signals
        = List.replicate (d :: tl).length SignalType.Buy
    ∧ (∀ acc : ℕ × ℕ, voteStep acc (rsiIndicator precision (d :: tl)) = (acc.1 + 1, acc.2))
    ∧ (analyze_symbol precision now (d :: tl) strategy).map (fun r => r.indicators.head?)
        = .ok (some (rsiIndicator precision (d :: tl))) := by
  have hlen : (((d :: tl).map (fun x => x.price)).length) < 14 + 1 := by
    simpa using h
  have hv : (rsiIndicator precision (d :: tl)).values
      = List.replicate (d :: tl).length 0 := by
    simp only [rsiIndicator, calculate_rsi, if_pos hlen, Option.getD_some]
    simp
  refine ⟨hv, ?_, ?_, ?_⟩
  · have : (rsiIndicator precision (d :: tl)).signals
        = (rsiIndicator precision (d :: tl)).values.map rsiSignal := rfl
    rw [this, hv, List.map_replicate]
    congr 1
  · intro acc
    have hne : (rsiIndicator precision (d :: tl)).values ≠ [] := by
      rw [hv]; simp
    rw [voteStep_rsi acc _ rfl hne, hv]
    rw [List.length_replicate, replicate_getD_zero]
    norm_num
  · rw [analyze_symbol_cons, except_map_ok]
    simp [analysisIndicators]

/-- C10 witness: the short-series RSI behaviour at a concrete 3-point series. -/
theorem claim_C10_witness :
    (rsiIndicator 4 [MarketData.new "A" 0 1 1, MarketData.new "A" 1 2 1,
        MarketData.new "A" 2 3 1]).values = List.replicate 3 0
    ∧ (rsiIndicator 4 [MarketData.new "A" 0 1 1, MarketData.new "A" 1 2 1,
        MarketData.new "A" 2 3 1]).signals = List.replicate 3 SignalType.Buy
    ∧ voteStep (0, 0) (rsiIndicator 4 [MarketData.new "A" 0 1 1,
        MarketData.new "A" 1 2 1, MarketData.new "A" 2 3 1]) = (1, 0) := by
  have h := claim_C10 4 0 none (MarketData.new "A" 0 1 1)
    [MarketData.new "A" 1 2 1, MarketData.new "A" 2 3 1] (by norm_num)
  exact ⟨h.1, h.2.1, h.2.2.1 (0, 0)⟩

/-! ## C2: the MACD fusion vote -/


set_option maxHeartbeats 1000000 in
theorem pulse_macd_line :
    (macdIndicator 4 pulseData).values
      = [0, 797721/10000, 123181/2000, 466437/10000, 344017/10000, 244183/10000,
         163183/10000, 48931/5000, 45569/10000, 51/125] := by
  show (calculate_macd 4 (pulseData.map (fun d => d.price)) 12 26 9).1 = _
  show (calculate_macd 4 [1, 1001, 1, 1, 1, 1, 1, 1, 1, 1] 12 26 9).1 = _
  norm_num [calculate_macd, calculate_ema, emaRun, roundTo, roundHalfAway]

/-- C2 counterexample: on `pulseData` the latest MACD value (0.408) exceeds the
value 9 bars earlier (index 0, value 0), so the claim demands a buy vote, yet
the fusion casts a sell vote — the source compares against index
`len.saturating_sub(9) = 1` (79.7721), only 8 bars back. -/
theorem claim_C2_counterexample :
    ((macdIndicator 4 pulseData).values.getD
        ((macdIndicator 4 pulseData).values.length - 1 - 9) 0
      < (macdIndicator 4 pulseData).values.getD
        ((macdIndicator 4 pulseData).values.length - 1) 0)
    ∧ voteStep (0, 0) (macdIndicator 4 pulseData) = (0, 1)
    ∧ ((0, 1) : ℕ × ℕ) ≠ (1, 0) := by
  refine ⟨?_, ?_, by decide⟩
  · rw [pulse_macd_line]
    norm_num
  · rw [voteStep_macd (0, 0) _ rfl (by rw [pulse_macd_line]; simp), pulse_macd_line]
    norm_num

/-- C2 (amended): for every non-empty input series the fusion gives MACD
exactly one vote, obtained by comparing the latest MACD-line value with the
value at index `len.saturating_sub(9)` — the value 8 bars earlier once the
series has at least 9 points (clamped to index 0 below that): a buy vote when
the latest is strictly greater, otherwise a sell vote.  The total count is the
RSI vote followed by the MACD vote; the SMA series contribute none. -/
theorem claim_C2 (precision : ℕ) (d : MarketData) (tl : List MarketData) :
    (∀ acc : ℕ × ℕ, voteStep acc (macdIndicator precision (d :: tl))
      = if (macdIndicator precision (d :: tl)).values.getD
            ((macdIndicator precision (d :: tl)).values.length - 9) 0
          < (macdIndicator precision (d :: tl)).values.getD
            ((macdIndicator precision (d :: tl)).values.length - 1) 0
        then (acc.1 + 1, acc.2) else (acc.1, acc.2 + 1))
    ∧ countVotes (analysisIndicators precision (d :: tl))
        = voteStep (voteStep (0, 0) (rsiIndicator precision (d :: tl)))
            (macdIndicator precision (d :: tl)) := by
  have hne : (macdIndicator precision (d :: tl)).values ≠ [] := by
    have hl := macdIndicator_values_length precision (d :: tl)
    intro hv
    rw [hv] at hl
    simp at hl
  constructor
  · intro acc
    exact voteStep_macd acc _ rfl hne
  · rw [countVotes]
    simp only [analysisIndicators, List.foldl_cons, List.foldl_nil]
    rw [voteStep_other _ (smaShortIndicator precision (d :: tl))
        (by simp [smaShortIndicator]) (by simp [smaShortIndicator]),
      voteStep_other _ (smaLongIndicator precision (d :: tl))
        (by simp [smaLongIndicator]) (by simp [smaLongIndicator])]

/-! ## C9: RSI range and formula -/

set_option maxHeartbeats 1000000 in
theorem rsi_eval_3129 :
    calculate_rsi 4 [3, 1, 2, 9] 2 = some [0, 0, 333333/10000, 882353/10000] := by
  norm_num [calculate_rsi, rsiSeedAvgs, priceChanges, rsiRun, rsiValue, roundTo,
    roundHalfAway, List.replicate]

/-- C9 counterexample: the claim's formula omits the rounding the source
applies.  On `[3,1,2,9]` with period 2 the seed averages are
`avg_gain = 1/2`, `avg_loss = 1`, so the claim's exact formula gives
`100 - 100/(1 + 1/2) = 100/3`, but the emitted value is the rounded
`33.3333 = 333333/10000 ≠ 100/3`. -/
theorem claim_C9_counterexample :
    rsiSeedAvgs [3, 1, 2, 9] 2 = (1/2, 1)
    ∧ calculate_rsi 4 [3, 1, 2, 9] 2 = some [0, 0, 333333/10000, 882353/10000]
    ∧ (100 - 100 / (1 + (1/2 : ℚ) / 1)) = 100/3
    ∧ (333333/10000 : ℚ) ≠ 100/3 := by
  refine ⟨?_, rsi_eval_3129, by norm_num, by norm_num⟩
  norm_num [rsiSeedAvgs, priceChanges]

/-- C9 (amended): for every positive period, every non-placeholder RSI value
(index ≥ period) lies in [0, 100] and equals 100 when the running average loss
is 0, otherwise the ROUNDED `100 - 100/(1 + avg_gain/avg_loss)` at the
configured precision with nonnegative running averages; the first computed
value is obtained from the seed averages.  At period 0 on a non-empty series
the seed averages are `0.0 / 0.0 = NaN` and every output value is NaN (hence
outside [0, 100]), as the NaN-aware model records. -/
theorem claim_C9 (precision : ℕ) (prices : List ℚ) (period : ℕ) :
    (∀ out, 0 < period → calculate_rsi precision prices period = some out →
      (∀ v ∈ out.drop period,
        (0 ≤ v ∧ v ≤ 100)
        ∧ ∃ ag al, 0 ≤ ag ∧ 0 ≤ al
            ∧ v = if al = 0 then (100 : ℚ)
                  else roundTo (100 - 100 / (1 + ag / al)) precision)
      ∧ (period + 1 ≤ prices.length →
          out.getD period 0
            = rsiValue precision (rsiSeedAvgs prices period).1
                (rsiSeedAvgs prices period).2))
    ∧ (1 ≤ prices.length → ∀ v ∈ calculate_rsiN precision prices 0, v = none) := by
  refine ⟨?_, calculate_rsiN_zero_nan precision prices⟩
  intro out hp h
  rw [calculate_rsi] at h
  by_cases hlen : prices.length < period + 1
  · rw [if_pos hlen] at h
    have he := Option.some_injective _ h
    subst he
    constructor
    · intro v hv
      rw [List.drop_eq_nil_of_le (by simp; omega)] at hv
      simp at hv
    · intro h1
      omega
  · rw [if_neg hlen, if_neg (Nat.pos_iff_ne_zero.mp hp)] at h
    have he := Option.some_injective _ h
    subst he
    have hg := (rsiSeedAvgs_nonneg prices period).1
    have hl := (rsiSeedAvgs_nonneg prices period).2
    constructor
    · intro v hv
      rw [List.drop_left' (List.length_replicate period (0 : ℚ))] at hv
      obtain ⟨hb, ag, al, hag, hal, hval⟩ := rsiRun_mem precision period _ _ _ hg hl v hv
      exact ⟨hb, ag, al, hag, hal, by rw [hval]; rfl⟩
    · intro _
      rw [List.getD_append_right _ _ _ _ (by simp), List.length_replicate,
        Nat.sub_self, rsiRun_getD_zero]

/-- C9 witness: the amended statement instantiated on `[3,1,2,9]` with
period 2 (positive-period part) and period 0 (NaN part). -/
theorem claim_C9_witness :
    (∀ v ∈ ([0, 0, 333333/10000, 882353/10000] : List ℚ).drop 2,
      (0 ≤ v ∧ v ≤ 100)
      ∧ ∃ ag al, 0 ≤ ag ∧ 0 ≤ al
          ∧ v = if al = 0 then (100 : ℚ) else roundTo (100 - 100 / (1 + ag / al)) 4)
    ∧ ([0, 0, 333333/10000, 882353/10000] : List ℚ).getD 2 0
        = rsiValue 4 (rsiSeedAvgs [3, 1, 2, 9] 2).1 (rsiSeedAvgs [3, 1, 2, 9] 2).2
    ∧ (∀ v ∈ calculate_rsiN 4 [3, 1, 2, 9] 0, v = none) := by
  have h := claim_C9 4 [3, 1, 2, 9] 2
  have h1 := h.1 [0, 0, 333333/10000, 882353/10000] (by norm_num) rsi_eval_3129
  exact ⟨h1.1, h1.2 (by norm_num), h.2 (by norm_num)⟩

/-! ## C5: the rounding policy on every indicator output -/

theorem roundTo_hundred (p : ℕ) : roundTo (100 : ℚ) p = 100 := by
  simpa using roundTo_intCast (α := ℚ) 100 p

theorem calculate_sma_mem_fixed (precision : ℕ) (prices : List ℚ) (period : ℕ)
    (out : List ℚ) (h : calculate_sma precision prices period = some out) :
    ∀ v ∈ out, roundTo v precision = v := by
  have h0 : period ≠ 0 := by
    intro h0
    rw [calculate_sma, if_pos h0] at h
    exact absurd h (by simp)
  rw [calculate_sma_eq_smaSpec precision prices (Nat.pos_of_ne_zero h0)] at h
  have he := Option.some_injective _ h
  subst he
  intro v hv
  rw [smaSpec, List.mem_map] at hv
  obtain ⟨i, _, hv⟩ := hv
  rw [← hv, smaSpecValue]
  split
  · exact roundTo_zero precision
  · exact roundTo_roundTo _ _

theorem calculate_ema_drop_fixed (precision : ℕ) (prices : List ℚ) (period : ℕ) :
    ∀ v ∈ (calculate_ema precision prices period).drop 1, roundTo v precision = v := by
  cases prices with
  | nil => intro v hv; simp [calculate_ema] at hv
  | cons p rest =>
    intro v hv
    obtain ⟨x, hx⟩ := emaRun_mem precision _ rest p v (by simpa [calculate_ema] using hv)
    rw [hx]
    exact roundTo_roundTo _ _

theorem calculate_ema_head (precision : ℕ) (prices : List ℚ) (period : ℕ) :
    (calculate_ema precision prices period).head? = prices.head? := by
  cases prices <;> rfl

theorem calculate_rsi_mem_fixed (precision : ℕ) (prices : List ℚ) (period : ℕ)
    (out : List ℚ) (h : calculate_rsi precision prices period = some out) :
    ∀ v ∈ out, roundTo v precision = v := by
  rw [calculate_rsi] at h
  by_cases hlen : prices.length < period + 1
  · rw [if_pos hlen] at h
    have he := Option.some_injective _ h
    subst he
    intro v hv
    rw [List.eq_of_mem_replicate hv]
    exact roundTo_zero precision
  · rw [if_neg hlen] at h
    by_cases h0 : period = 0
    · rw [if_pos h0] at h
      exact absurd h (by simp)
    · rw [if_neg h0] at h
      have he := Option.some_injective _ h
      subst he
      intro v hv
      rcases List.mem_append.mp hv with hm | hm
      · rw [List.eq_of_mem_replicate hm]
        exact roundTo_zero precision
      · obtain ⟨_, ag, al, _, _, hval⟩ := rsiRun_mem precision period _ _ _
          (rsiSeedAvgs_nonneg prices period).1 (rsiSeedAvgs_nonneg prices period).2 v hm
        rw [hval, rsiValue]
        split
        · exact roundTo_hundred precision
        · exact roundTo_roundTo _ _

theorem calculate_ema_mem_fixed_of (precision : ℕ) (L : List ℚ) (period : ℕ)
    (hL : ∀ v ∈ L, roundTo v precision = v) :
    ∀ v ∈ calculate_ema precision L period, roundTo v precision = v := by
  cases L with
  | nil => intro v hv; simp [calculate_ema] at hv
  | cons a rest =>
    intro v hv
    simp only [calculate_ema] at hv
    rcases List.mem_cons.mp hv with h | h
    · rw [h]
      exact hL a (List.mem_cons_self a rest)
    · obtain ⟨x, hx⟩ := emaRun_mem precision _ rest a v h
      rw [hx]
      exact roundTo_roundTo _ _

theorem calculate_macd_mem_fixed (precision : ℕ) (prices : List ℚ)
    (fast slow signal : ℕ) :
    (∀ v ∈ (calculate_macd precision prices fast slow signal).1,
        roundTo v precision = v)
    ∧ (∀ v ∈ (calculate_macd precision prices fast slow signal).2.1,
        roundTo v precision = v)
    ∧ (∀ v ∈ (calculate_macd precision prices fast slow signal).2.2,
        roundTo v precision = v) := by
  have hline : ∀ v ∈ (calculate_macd precision prices fast slow signal).1,
      roundTo v precision = v := by
    intro v hv
    obtain ⟨x, hx⟩ := zipWith_roundTo_mem precision (fun a b => a - b)
      (calculate_ema precision prices fast) (calculate_ema precision prices slow) v hv
    rw [hx]
    exact roundTo_roundTo _ _
  refine ⟨hline, ?_, fun v hv => ?_⟩
  · exact calculate_ema_mem_fixed_of precision
      (calculate_macd precision prices fast slow signal).1 signal hline
  · obtain ⟨x, hx⟩ := zipWith_roundTo_mem precision (fun m s => (m - s) * 1000)
      (calculate_macd precision prices fast slow signal).1
      (calculate_ema precision (calculate_macd precision prices fast slow signal).1 signal)
      v hv
    rw [hx]
    exact roundTo_roundTo _ _

theorem calculate_bollinger_mem_fixed (precision : ℕ) (prices : List ℚ) (period : ℕ)
    (k : ℝ) (u : List ℝ) (mid : List ℚ) (lo : List ℝ)
    (h : calculate_bollinger_bands precision prices period k = some (u, mid, lo)) :
    (∀ v ∈ u, roundTo v precision = v) ∧ (∀ v ∈ mid, roundTo v precision = v)
    ∧ (∀ v ∈ lo, roundTo v precision = v) := by
  rw [calculate_bollinger_bands] at h
  cases hsma : calculate_sma precision prices period with
  | none =>
    rw [hsma] at h
    exact absurd h (by simp)
  | some sma =>
    rw [hsma] at h
    have he := Option.some_injective _ h
    injection he with e1 e23
    injection e23 with e2 e3
    subst e1 e2 e3
    refine ⟨fun v hv => ?_, calculate_sma_mem_fixed precision prices period sma hsma,
      fun v hv => ?_⟩ <;>
    · rw [List.mem_map] at hv
      obtain ⟨i, _, hv⟩ := hv
      rw [← hv]
      split
      · exact roundTo_roundTo _ _
      · exact roundTo_zero precision

/-- C5 counterexample: `calculate_ema` emits the raw first price unrounded; on
the one-point series `[1/20000]` the output value `1/20000` is not a fixed
point of rounding at the default precision 4 (it rounds to `1/10000`). -/
theorem claim_C5_counterexample :
    calculate_ema 4 [1/20000] 7 = [1/20000]
    ∧ roundTo (1/20000 : ℚ) 4 = 1/10000
    ∧ (1/20000 : ℚ) ≠ 1/10000 := by
  refine ⟨rfl, ?_, by norm_num⟩
  norm_num [roundTo, roundHalfAway]

/-- C5 (amended): the rounding is idempotent, and every numeric value output by
SMA, RSI, MACD (line, signal line, histogram) and Bollinger (upper band, middle
band, lower band) is a fixed point of round-half-away-from-zero rounding at the
configured precision; every EMA output except index 0 is such a fixed point,
while the EMA output at index 0 equals the raw, unrounded first input price. -/
theorem claim_C5 (precision : ℕ) (prices : List ℚ) (period fast slow signal : ℕ)
    (k : ℝ) :
    (∀ x : ℚ, roundTo (roundTo x precision) precision = roundTo x precision)
    ∧ (∀ out, calculate_sma precision prices period = some out →
        ∀ v ∈ out, roundTo v precision = v)
    ∧ (∀ v ∈ (calculate_ema precision prices period).drop 1, roundTo v precision = v)
    ∧ (calculate_ema precision prices period).head? = prices.head?
    ∧ (∀ out, calculate_rsi precision prices period = some out →
        ∀ v ∈ out, roundTo v precision = v)
    ∧ (∀ v ∈ (calculate_macd precision prices fast slow signal).1,
        roundTo v precision = v)
    ∧ (∀ v ∈ (calculate_macd precision prices fast slow signal).2.1,
        roundTo v precision = v)
    ∧ (∀ v ∈ (calculate_macd precision prices fast slow signal).2.2,
        roundTo v precision = v)
    ∧ (∀ u mid lo, calculate_bollinger_bands precision prices period k
          = some (u, mid, lo) →
        (∀ v ∈ u, roundTo v precision = v) ∧ (∀ v ∈ mid, roundTo v precision = v)
        ∧ (∀ v ∈ lo, roundTo v precision = v)) := by
  obtain ⟨m1, m2, m3⟩ := calculate_macd_mem_fixed precision prices fast slow signal
  exact ⟨fun x => roundTo_roundTo x precision,
    fun out h => calculate_sma_mem_fixed precision prices period out h,
    calculate_ema_drop_fixed precision prices period,
    calculate_ema_head precision prices period,
    fun out h => calculate_rsi_mem_fixed precision prices period out h,
    m1, m2, m3,
    fun u mid lo h => calculate_bollinger_mem_fixed precision prices period k u mid lo h⟩

theorem sma_eval_3129 : calculate_sma 4 [3, 1, 2, 9] 2 = some [0, 2, 3/2, 11/2] := by
  norm_num [calculate_sma, smaRun, roundTo, roundHalfAway, List.replicate]

/-- C5 witness: the fixed-point property at the concrete series `[3,1,2,9]`. -/
theorem claim_C5_witness :
    (roundTo (roundTo (1/3 : ℚ) 4) 4 = roundTo (1/3 : ℚ) 4)
    ∧ (∀ v ∈ ([0, 2, 3/2, 11/2] : List ℚ), roundTo v 4 = v)
    ∧ (∀ v ∈ ([0, 0, 333333/10000, 882353/10000] : List ℚ), roundTo v 4 = v)
    ∧ (calculate_ema 4 [3, 1, 2, 9] 2).head? = some 3
    ∧ (∀ v ∈ (calculate_macd 4 [3, 1, 2, 9] 12 26 9).1, roundTo v 4 = v) := by
  have h := claim_C5 4 [3, 1, 2, 9] 2 12 26 9 1
  refine ⟨h.1 (1/3), ?_, ?_, h.2.2.2.1, h.2.2.2.2.2.1⟩
  · exact h.2.1 [0, 2, 3/2, 11/2] sma_eval_3129
  · exact h.2.2.2.2.1 [0, 0, 333333/10000, 882353/10000] rsi_eval_3129
